import Mathlib

/-!
Verification development for the nutrislice-menu-widget-api repository.

The core of the repository (Menu Fetcher, Menu Service, date utilities and
the TTL cache, from `app/utils.py`, `app/services/menu_fetcher.py` and
`app/services/menu_service.py`) is shallowly embedded below.

Modelling conventions:
* Calendar dates are modelled by their proleptic-Gregorian ordinal
  (`datetime.date.toordinal` in Python), a natural number.  Ordinal 1 is
  0001-01-01, a Monday, so `weekday o = (o + 6) % 7` with Monday = 0,
  exactly as `date.weekday()`.
* `date.isoformat()` is an injective encoding of a date.  Every claim
  treats the produced date strings purely as opaque dictionary keys, so at
  the Menu Service layer the key for a date is modelled by the date's
  ordinal itself; the fetcher's cache key "week:" + iso(monday) is likewise
  modelled by the Monday's ordinal (the "week:" prefix and the iso rendering
  form an injective function of the Monday).
* Python dicts are modelled as association lists in insertion order;
  assignment `d[k] = v` is `dict_insert` (update in place, else append),
  matching the insertion-order semantics of Python dicts.
* Python float timestamps (`time.time()`) are modelled as integers; the TTL
  comparison `time.time() - ts > ttl` does not depend on sub-integer
  resolution.  Within one `get_week` call the times observed by
  `cache.get` and `cache.set` are identified as a single `now`.
* `re.sub` with the fixed patterns of `conjunction_junction` is translated
  into dedicated character-list scanners implementing those patterns'
  semantics (left-to-right scan, non-overlapping matches, greedy `\s*`,
  alternatives tried in order).  Scanners that consume a statically unknown
  number of characters per step take a fuel argument; they are always
  called with fuel at least the length of the input, which each step
  strictly decreases, so the fuel never runs out.
-/

/-- Association-list lookup, first binding wins (Python dict lookup). -/
def alist_lookup {κ V : Type} [DecidableEq κ] : List (κ × V) → κ → Option V
  | [], _ => none
  | (k0, v0) :: t, k => if k0 = k then some v0 else alist_lookup t k

/-- Python dict assignment `d[k] = v`: update the binding in place if the key
is present, otherwise append it. -/
def dict_insert {κ V : Type} [DecidableEq κ] : List (κ × V) → κ → V → List (κ × V)
  | [], k, v => [(k, v)]
  | (k0, v0) :: t, k, v => if k0 = k then (k, v) :: t else (k0, v0) :: dict_insert t k v

/-- Python `dict.pop(k, None)`: remove the (unique) binding for `k`. -/
def remove_key {κ V : Type} [DecidableEq κ] : List (κ × V) → κ → List (κ × V)
  | [], _ => []
  | (k0, v0) :: t, k => if k0 = k then t else (k0, v0) :: remove_key t k

/-- Python `dict.update(other)`: assign every binding of `other` in order. -/
def dict_update {κ V : Type} [DecidableEq κ] (d other : List (κ × V)) : List (κ × V) :=
  other.foldl (fun acc p => dict_insert acc p.1 p.2) d

/- ------------------------------------------------------------------ -/
/- Python string primitives                                            -/
/- ------------------------------------------------------------------ -/

/-- The whitespace characters recognised by Python's `str.strip` and `\s`
(ASCII range). -/
def is_py_space (c : Char) : Bool :=
  c = ' ' || c = '\t' || c = '\n' || c = '\r' || c = '\x0b' || c = '\x0c'

/-- A word character for the purposes of the regex `\b` boundary (ASCII). -/
def is_word_char (c : Char) : Bool := c.isAlphanum || c = '_'

def trim_left (xs : List Char) : List Char := xs.dropWhile is_py_space

/-- Python `str.strip()` on a character list: drop whitespace from both ends. -/
def py_strip_list (xs : List Char) : List Char :=
  ((trim_left xs).reverse.dropWhile is_py_space).reverse

/-- Python `str.strip()`. -/
def py_strip (s : String) : String := String.mk (py_strip_list s.toList)

/-- Python `str.lower()` (ASCII case mapping; all strings the heuristics
compare against are ASCII). -/
def py_lower (s : String) : String := String.mk (s.toList.map Char.toLower)

/-- Case-sensitive test that `needle` is a leading run of `hay`. -/
def leads_with {α : Type} [DecidableEq α] : List α → List α → Bool
  | [], _ => true
  | _ :: _, [] => false
  | a :: t, b :: u => a = b && leads_with t u

/-- Python `needle in hay` substring test on character lists. -/
def sub_in {α : Type} [DecidableEq α] (needle : List α) : List α → Bool
  | [] => leads_with needle []
  | c :: t => leads_with needle (c :: t) || sub_in needle t

/- ------------------------------------------------------------------ -/
/- app/utils.py : date utilities                                       -/
/- ------------------------------------------------------------------ -/

/-- `date.weekday()`: Monday = 0 .. Sunday = 6, on ordinals (ordinal 1 is a
Monday). -/
def weekday (o : Nat) : Nat := (o + 6) % 7

/-- `week_start(d)`: the Monday of the week containing `d`
(`d - timedelta(days=d.weekday())`). -/
def week_start (o : Nat) : Nat := o - weekday o

/-- The loop of `add_business_days`: `while added < days_ahead: d += 1;
if d.weekday() < 5: added += 1`.  Fuel-indexed so that it computes by kernel
reduction; `add_business_days` supplies fuel `3 * n + 3`, which is strictly
more than the measure `3 * (target - added) + pad d` that each iteration
decreases (at most two consecutive non-business days exist). -/
def bus_loop : Nat → Nat → Nat → Nat → Nat
  | 0, d, _, _ => d
  | fuel + 1, d, added, target =>
    if added < target then
      if weekday (d + 1) < 5 then bus_loop fuel (d + 1) (added + 1) target
      else bus_loop fuel (d + 1) added target
    else d

/-- `add_business_days(start, days_ahead)` from `app/utils.py`. -/
def add_business_days (start : Nat) (days_ahead : Int) : Nat :=
  if days_ahead ≤ 0 then start
  else bus_loop (3 * days_ahead.toNat + 3) start 0 days_ahead.toNat

/- ------------------------------------------------------------------ -/
/- app/services/menu_fetcher.py : raw item shapes and name extraction  -/
/- ------------------------------------------------------------------ -/

/-- A raw upstream menu item, capturing exactly the distinctions
`MenuFetcher._food_name` inspects:
* `food = some (some s)`: the item has a `food` dict whose `name` is the
  string `s` (possibly empty); `some none`: a `food` dict without a string
  `name`; `none`: no `food` dict.
* `name`/`text = some s`: the flat field is the string `s`; `none`: absent
  or not a string.
* `menu_item = some (some s)`: a nested `menu_item.food` dict whose `name`
  is the string `s`; `some none`: the nesting exists without a string name;
  `none`: no such nesting. -/
structure RawMenuItem where
  food : Option (Option String)
  name : Option String
  text : Option String
  menu_item : Option (Option String)
  deriving DecidableEq, Repr

/-- The guard `isinstance(val, str) and val.strip()` used for the flat
`name`/`text` probes of `_food_name`. -/
def str_probe : Option String → Option String
  | some v => if py_strip v = "" then none else some (py_strip v)
  | none => none

/-- `MenuFetcher._food_name`: probe the upstream shapes in order.  Note that
the first probe returns `food["name"].strip()` whenever the field is a
string, even when the stripped result is empty. -/
def food_name (mi : RawMenuItem) : String :=
  match mi.food with
  | some (some n) => py_strip n
  | _ =>
    match str_probe mi.name with
    | some s => s
    | none =>
      match str_probe mi.text with
      | some s => s
      | none =>
        match mi.menu_item with
        | some (some n2) => py_strip n2
        | _ => ""

/- ------------------------------------------------------------------ -/
/- Conjunction cleanup pipeline (menu_fetcher.py)                      -/
/- ------------------------------------------------------------------ -/

/-- Whether the preceding original character allows a `\b` boundary before a
word character (start of string, or a non-word character). -/
def word_bound : Option Char → Bool
  | none => true
  | some p => !(is_word_char p)

/-- `re.sub(r"(?i)\bw/(\S)", r"w/ \1", s)`: insert a space after `w/` when it
is followed by a non-space character.  `prev` is the original character just
before the current position (for the `\b` test); scanning resumes after each
match. -/
def ensure_space_list : Nat → Option Char → List Char → List Char
  | 0, _, xs => xs
  | _ + 1, _, [] => []
  | fuel + 1, prev, c :: rest@('/' :: d :: rest2) =>
    if (c = 'w' || c = 'W') && word_bound prev && !(is_py_space d) then
      'w' :: '/' :: ' ' :: d :: ensure_space_list fuel (some d) rest2
    else c :: ensure_space_list fuel (some c) rest
  | fuel + 1, _, c :: rest => c :: ensure_space_list fuel (some c) rest

/-- `MenuFetcher._ensure_space_after_w_slash`. -/
def ensure_space_after_w_slash (s : String) : String :=
  String.mk (ensure_space_list (s.toList.length + 1) none s.toList)

/-- `re.sub(r"(?i)\bw/\b", "with", s)`: `/` is a non-word character, so the
trailing `\b` holds exactly when the next character is a word character. -/
def rep_a : Nat → Option Char → List Char → List Char
  | 0, _, xs => xs
  | _ + 1, _, [] => []
  | fuel + 1, prev, c :: rest@('/' :: tl@(d :: _)) =>
    if (c = 'w' || c = 'W') && word_bound prev && is_word_char d then
      'w' :: 'i' :: 't' :: 'h' :: rep_a fuel (some '/') tl
    else c :: rep_a fuel (some c) rest
  | fuel + 1, _, c :: rest => c :: rep_a fuel (some c) rest

/-- `re.sub(r"(?i)\bw/\s+", "with ", s)`: fuel-indexed because the greedy
`\s+` consumes a run of whitespace; called with fuel at least the input
length. -/
def rep_b : Nat → Option Char → List Char → List Char
  | 0, _, xs => xs
  | _ + 1, _, [] => []
  | fuel + 1, prev, c :: rest =>
    if (c = 'w' || c = 'W') && word_bound prev then
      match rest with
      | '/' :: d :: rest2 =>
        if is_py_space d then
          'w' :: 'i' :: 't' :: 'h' :: ' ' ::
            rep_b fuel (some (((d :: rest2).takeWhile is_py_space).getLastD ' '))
              ((d :: rest2).dropWhile is_py_space)
        else c :: rep_b fuel (some c) rest
      | _ => c :: rep_b fuel (some c) rest
    else c :: rep_b fuel (some c) rest

/-- `re.sub(r"(?i)\bw/", "with ", s)`. -/
def rep_c : Nat → Option Char → List Char → List Char
  | 0, _, xs => xs
  | _ + 1, _, [] => []
  | fuel + 1, prev, c :: rest@('/' :: rest2) =>
    if (c = 'w' || c = 'W') && word_bound prev then
      'w' :: 'i' :: 't' :: 'h' :: ' ' :: rep_c fuel (some '/') rest2
    else c :: rep_c fuel (some c) rest
  | fuel + 1, _, c :: rest => c :: rep_c fuel (some c) rest

/-- `MenuFetcher._replace_w_slash_with_with`: the three substitutions in
source order. -/
def replace_w_slash_with_with (s : String) : String :=
  let a := rep_a (s.toList.length + 1) none s.toList
  let b := rep_b (a.length + 1) none a
  String.mk (rep_c (b.length + 1) none b)

/-- Case-insensitive match of the fixed word `w` (given lowercase) at the
head of `xs`; returns the matched original characters and the rest. -/
def ci_take : List Char → List Char → Option (List Char × List Char)
  | [], xs => some ([], xs)
  | _ :: _, [] => none
  | a :: t, b :: u =>
    if b.toLower = a then (ci_take t u).map (fun p => (b :: p.1, p.2)) else none

/-- The alternation `(and|or|with)` (the sorted conjunction set joined by
`|`), alternatives tried in order, case-insensitively; returns the captured
original text and the rest. -/
def conj_at (xs : List Char) : Option (List Char × List Char) :=
  match ci_take ['a', 'n', 'd'] xs with
  | some r => some r
  | none =>
    match ci_take ['o', 'r'] xs with
    | some r => some r
    | none => ci_take ['w', 'i', 't', 'h'] xs

/-- Match attempt for `\s*,\s*(and|or|with)\s*,\s*` (replacement
`" \1 "`): returns the replacement text and the rest after the match. -/
def try_r1 (xs : List Char) : Option (List Char × List Char) :=
  match xs.dropWhile is_py_space with
  | ',' :: u =>
    match conj_at (u.dropWhile is_py_space) with
    | some (cw, v) =>
      match v.dropWhile is_py_space with
      | ',' :: w => some (' ' :: cw ++ [' '], w.dropWhile is_py_space)
      | _ => none
    | none => none
  | _ => none

/-- Match attempt for `\s*(and|or|with)\s*,\s*` (replacement `"\1 "`). -/
def try_r2 (xs : List Char) : Option (List Char × List Char) :=
  match conj_at (xs.dropWhile is_py_space) with
  | some (cw, v) =>
    match v.dropWhile is_py_space with
    | ',' :: w => some (cw ++ [' '], w.dropWhile is_py_space)
    | _ => none
  | none => none

/-- Match attempt for `\s*,\s*(and|or|with)\s*` (replacement `" \1"`). -/
def try_r3 (xs : List Char) : Option (List Char × List Char) :=
  match xs.dropWhile is_py_space with
  | ',' :: u =>
    match conj_at (u.dropWhile is_py_space) with
    | some (cw, v) => some (' ' :: cw, v.dropWhile is_py_space)
    | none => none
  | _ => none

/-- `re.sub` driver: scan left to right, substituting non-overlapping
matches of `tryM` (none of the patterns can match the empty string, so every
step consumes at least one character; fuel at least the input length
suffices). -/
def scan_sub (tryM : List Char → Option (List Char × List Char)) :
    Nat → List Char → List Char
  | 0, xs => xs
  | fuel + 1, xs =>
    match tryM xs with
    | some (rep, rest) => rep ++ scan_sub tryM fuel rest
    | none =>
      match xs with
      | [] => []
      | c :: t => c :: scan_sub tryM fuel t

/-- `MenuFetcher._remove_commas_around_conjunctions`: the three
substitutions in source order. -/
def remove_commas_around_conjunctions (s : String) : String :=
  let a := scan_sub try_r1 (s.toList.length + 1) s.toList
  let b := scan_sub try_r2 (a.length + 1) a
  String.mk (scan_sub try_r3 (b.length + 1) b)

/-- `re.sub(r"\s{2,}", " ", s)`: collapse each maximal run of two or more
whitespace characters to a single space. -/
def collapse_ws : Nat → List Char → List Char
  | 0, xs => xs
  | _ + 1, [] => []
  | fuel + 1, c :: rest =>
    if is_py_space c then
      match rest with
      | d :: _ =>
        if is_py_space d then ' ' :: collapse_ws fuel (rest.dropWhile is_py_space)
        else c :: collapse_ws fuel rest
      | [] => [c]
    else c :: collapse_ws fuel rest

/-- `MenuFetcher._normalize_whitespace`: collapse runs of whitespace, then
`strip()`. -/
def normalize_whitespace (s : String) : String :=
  String.mk (py_strip_list (collapse_ws (s.toList.length + 1) s.toList))

/-- `MenuFetcher.conjunction_junction`: the four cleanup steps in their
fixed order. -/
def conjunction_junction (s : String) : String :=
  normalize_whitespace
    (remove_commas_around_conjunctions
      (replace_w_slash_with_with
        (ensure_space_after_w_slash s)))

/- ------------------------------------------------------------------ -/
/- Parsing: state machine on section headers (menu_fetcher.py)         -/
/- ------------------------------------------------------------------ -/

/-- The canonical bucket display order `MenuFetcher._ORDER`. -/
def bucket_order : List String := ["Breakfast", "Lunch", "Grab & Go", "Deli Entree"]

/-- `MenuFetcher.header_map`: header aliases that switch the current
bucket. -/
def header_map : List (String × String) :=
  [("breakfast", "Breakfast"), ("lunch", "Lunch"),
   ("grab & go", "Grab & Go"), ("grab and go", "Grab & Go"),
   ("deli entree", "Deli Entree"), ("deli entrée", "Deli Entree")]

/-- Membership in `self.conjunctions`. -/
def is_conjunction (k : String) : Bool := k = "with" || k = "and" || k = "or"

/-- `buckets.setdefault(k, [])`: append an empty slot if the key is
absent. -/
def b_setdefault (b : List (String × List String)) (k : String) :
    List (String × List String) :=
  if (alist_lookup b k).isSome then b else b ++ [(k, [])]

/-- `buckets[k].append(tok)` (the key is always present when this is
reached, since it was just set or setdefault-ed). -/
def b_append (b : List (String × List String)) (k : String) (tok : String) :
    List (String × List String) :=
  match b with
  | [] => []
  | (k0, toks) :: t =>
    if k0 = k then (k0, toks ++ [tok]) :: t else (k0, toks) :: b_append t k tok

/-- The loop state of `MenuFetcher._parse_meals`: the buckets built so far
and the current bucket pointer. -/
structure MealState where
  buckets : List (String × List String)
  current : Option String
  deriving DecidableEq, Repr

/-- One iteration of the `_parse_meals` loop over the items. -/
def meal_step (st : MealState) (mi : RawMenuItem) : MealState :=
  let name := food_name mi
  if name = "" then st
  else
    let k := py_lower (py_strip name)
    match alist_lookup header_map k with
    | some canon => ⟨b_setdefault st.buckets canon, some canon⟩
    | none =>
      -- `if not current_bucket:` (falsy: None or the empty string)
      let cb : Option String :=
        match st.current with
        | some c => if c = "" then none else some c
        | none => none
      match cb with
      | some cur =>
        let tok := if is_conjunction k then k else name
        ⟨b_append st.buckets cur tok, some cur⟩
      | none =>
        let cur := if sub_in "breakfast".toList k.toList then "Breakfast" else "Lunch"
        let tok := if is_conjunction k then k else name
        ⟨b_append (b_setdefault st.buckets cur) cur tok, some cur⟩

/-- `", ".join(tokens)`. -/
def join_comma_space (toks : List String) : String := String.intercalate ", " toks

/-- `MenuFetcher._parse_meals`: run the state machine, then join each
non-empty bucket's tokens and clean them up. -/
def parse_meals (items : List RawMenuItem) : List (String × String) :=
  let fin := items.foldl meal_step ⟨[], none⟩
  fin.buckets.foldl
    (fun res p =>
      if p.2 = [] then res
      else dict_insert res p.1 (conjunction_junction (join_comma_space p.2))) []

/-- The closure keyword list of `_maybe_convert_to_no_school`, in source
order. -/
def closure_keywords : List String :=
  ["conference", "conferences", "staff development", "inservice", "in-service",
   "teacher work day", "holiday", "no school", "school closed", "early release",
   "snow day"]

/-- `MenuFetcher._maybe_convert_to_no_school`. -/
def maybe_convert_to_no_school (meals : List (String × String)) :
    List (String × String) :=
  if meals = [] then meals
  else if (alist_lookup meals "No school").isSome then meals
  else
    let breakfast := py_strip ((alist_lookup meals "Breakfast").getD "")
    let lunch := py_strip ((alist_lookup meals "Lunch").getD "")
    let grab := py_strip ((alist_lookup meals "Grab & Go").getD "")
    let deli := py_strip ((alist_lookup meals "Deli Entree").getD "")
    if lunch ≠ "" ∧ breakfast = "" ∧ grab = "" ∧ deli = "" then
      let reason := lunch
      let reason_l := py_lower reason
      if closure_keywords.any (fun kw => sub_in kw.toList reason_l.toList) then
        [("No school", reason)]
      else if reason.length ≤ 80 then [("No school", reason)]
      else meals
    else meals

/-- `MenuFetcher._order_day_menu`: canonical buckets first in the fixed
order, then the remaining keys in their original order. -/
def order_day_menu (dm : List (String × String)) : List (String × String) :=
  let ordered := bucket_order.foldl
    (fun acc k =>
      match alist_lookup dm k with
      | some v => dict_insert acc k v
      | none => acc) []
  dm.foldl (fun acc p => if (alist_lookup acc p.1).isSome then acc else acc ++ [p])
    ordered

/-- `MenuFetcher._explicit_no_school`: the first item whose display name
(case-insensitively) starts with "no school". -/
def explicit_no_school (items : List RawMenuItem) : Option String :=
  items.findSome? (fun mi =>
    let name := food_name mi
    if name ≠ "" ∧ leads_with "no school".toList (py_lower name).toList = true then
      some name
    else none)

/-- One day of the upstream response body: the `date` field (`none` when
absent or not supplied) and the `menu_items` list. -/
structure NutriDay where
  date : Option String
  menu_items : List RawMenuItem
  deriving DecidableEq, Repr

/-- The upstream response body: its `days` array. -/
structure NutriWeek where
  days : List NutriDay
  deriving DecidableEq, Repr

/-- The per-day bucket value computed by the loop body of
`MenuFetcher._parse_week` (explicit closure check, else bucket parsing with
the implicit closure heuristic and reordering, else the "No data"
placeholder). -/
def parse_day (items : List RawMenuItem) : List (String × String) :=
  match explicit_no_school items with
  | some nm => [("No school", nm)]
  | none =>
    let meals := parse_meals items
    if meals ≠ [] then order_day_menu (maybe_convert_to_no_school meals)
    else [("No data", "Menu not available")]

/-- `MenuFetcher._parse_week`: fold the days into the output dict, skipping
days whose `date` field is falsy (absent or empty). -/
def parse_week (w : NutriWeek) : List (String × List (String × String)) :=
  w.days.foldl
    (fun out day =>
      match day.date with
      | none => out
      | some dk => if dk = "" then out else dict_insert out dk (parse_day day.menu_items))
    []

/- ------------------------------------------------------------------ -/
/- SimpleTTLCache and MenuFetcher.get_week                             -/
/- ------------------------------------------------------------------ -/

/-- A parsed week as cached and returned by `get_week`. -/
def WeekMenu : Type := List (String × List (String × String))

instance : DecidableEq WeekMenu := by unfold WeekMenu; infer_instance

/-- The fetcher's mutable state: the TTL cache store (`key ↦ (timestamp,
value)`, keyed by the week's Monday ordinal, standing for
`"week:" + monday.isoformat()`), and the number of upstream HTTP requests
issued so far (model instrumentation for "no new upstream request"). -/
structure FetchState where
  store : List (Nat × (Int × WeekMenu))
  calls : Nat
  deriving DecidableEq

/-- `SimpleTTLCache.get`: returns the stored value unless missing or
expired; an expired entry is popped (lazy eviction).  Returns the value and
the possibly-updated store. -/
def cache_get (ttl : Int) (store : List (Nat × (Int × WeekMenu))) (key : Nat)
    (now : Int) : Option WeekMenu × List (Nat × (Int × WeekMenu)) :=
  match alist_lookup store key with
  | none => (none, store)
  | some (ts, val) =>
    if now - ts > ttl then (none, remove_key store key) else (some val, store)

/-- `SimpleTTLCache.set`. -/
def cache_set (store : List (Nat × (Int × WeekMenu))) (key : Nat) (now : Int)
    (val : WeekMenu) : List (Nat × (Int × WeekMenu)) :=
  dict_insert store key (now, val)

/-- The network-and-parse part of `get_week` (request, raise_for_status,
resp.json(), _parse_week, cache.set).  `upstream monday = none` models any
fetch failure (network error, non-success status, or unparseable JSON body),
all of which raise before `cache.set` runs; the request itself is counted
either way. -/
def fetch_and_store (upstream : Nat → Option NutriWeek) (store : List (Nat × (Int × WeekMenu)))
    (calls : Nat) (monday : Nat) (now : Int) : Except Unit WeekMenu × FetchState :=
  match upstream monday with
  | none => (Except.error (), ⟨store, calls + 1⟩)
  | some resp =>
    let parsed := parse_week resp
    (Except.ok parsed, ⟨cache_set store monday now parsed, calls + 1⟩)

/-- `MenuFetcher.get_week(any_day)`: compute the week's Monday, consult the
TTL cache (note the truthiness test `if cached:`, under which a cached empty
dict counts as a miss), and otherwise fetch, parse and store. -/
def get_week (upstream : Nat → Option NutriWeek) (ttl : Int) (st : FetchState)
    (any_day : Nat) (now : Int) : Except Unit WeekMenu × FetchState :=
  let monday := week_start any_day
  let r := cache_get ttl st.store monday now
  match r.1 with
  | some c =>
    if c ≠ [] then (Except.ok c, ⟨r.2, st.calls⟩)
    else fetch_and_store upstream r.2 st.calls monday now
  | none => fetch_and_store upstream r.2 st.calls monday now

/- ------------------------------------------------------------------ -/
/- app/services/menu_service.py                                        -/
/- ------------------------------------------------------------------ -/

/-- A day's ordered bucket mapping as seen by the Menu Service. -/
def DayBuckets : Type := List (String × String)

instance : DecidableEq DayBuckets := by unfold DayBuckets; infer_instance

/-- The `"No data"` placeholder synthesized by the Menu Service. -/
def no_data_day : DayBuckets := [("No data", "Menu not available")]

/-- At the service layer a successful `fetcher.get_week(d)` is modelled as a
function from the requested date to the parsed week, whose day keys are the
dates themselves (standing for their `isoformat()` strings, an injective
encoding). -/
def GetWeekFn : Type := Nat → List (Nat × DayBuckets)

/-- `MenuService._day`: a single-day slice, synthesizing the `"No data"`
placeholder when the date is absent from the raw result. -/
def svc_day (raw : List (Nat × DayBuckets)) (d : Nat) : List (Nat × DayBuckets) :=
  match alist_lookup raw d with
  | none => [(d, no_data_day)]
  | some v => [(d, v)]

/-- `MenuService.day_at_offset(base, days_ahead)`. -/
def day_at_offset (getW : GetWeekFn) (base : Nat) (days_ahead : Int) :
    List (Nat × DayBuckets) :=
  let target := add_business_days base days_ahead
  svc_day (getW target) target

/-- The date-building loop of `window_business_days`:
`while len(dates) < count: dates.append(add_business_days(dates[-1], 1))`.
Fuel-indexed (each iteration appends one date, so fuel `count` suffices). -/
def build_dates : Nat → Nat → List Nat → List Nat
  | 0, _, dates => dates
  | fuel + 1, count, dates =>
    if dates.length < count then
      build_dates fuel count (dates ++ [add_business_days (dates.getLastD 0) 1])
    else dates

/-- `sorted({week_start(d) for d in dates})`: the distinct week Mondays in
ascending order. -/
def sorted_mondays (dates : List Nat) : List Nat :=
  List.insertionSort (· ≤ ·) (dates.map week_start).dedup

/-- The merged `week_data` dict of `window_business_days`: each touched
week's data, assigned in ascending Monday order. -/
def merged_week_data (getW : GetWeekFn) (dates : List Nat) : List (Nat × DayBuckets) :=
  (sorted_mondays dates).foldl (fun acc monday => dict_update acc (getW monday)) []

/-- `MenuService.window_business_days(base, count)`. -/
def window_business_days (getW : GetWeekFn) (base : Nat) (count : Int) :
    List (Nat × DayBuckets) :=
  let cnt := (max 1 count).toNat
  let dates := build_dates cnt cnt [base]
  let week_data := merged_week_data getW dates
  dates.foldl
    (fun out d => dict_insert out d ((alist_lookup week_data d).getD no_data_day)) []

/-- Modelled from the claim (C5) for comparison with the implementation:
the sequence of `n` dates starting at `base`, each subsequent one obtained
by advancing one business day. -/
def spec_window_dates (base : Nat) : Nat → List Nat
  | 0 => []
  | n + 1 => base :: spec_window_dates (add_business_days base 1) n

/- ------------------------------------------------------------------ -/
/- Lemmas: association lists                                           -/
/- ------------------------------------------------------------------ -/

theorem alist_lookup_dict_insert {κ V : Type} [DecidableEq κ]
    (m : List (κ × V)) (k k' : κ) (v : V) :
    alist_lookup (dict_insert m k v) k' =
      if k = k' then some v else alist_lookup m k' := by
  induction m with
  | nil => simp [dict_insert, alist_lookup]
  | cons p t ih =>
    obtain ⟨k0, v0⟩ := p
    by_cases h0 : k0 = k
    · subst h0
      by_cases h1 : k0 = k'
      · subst h1; simp [dict_insert, alist_lookup]
      · simp [dict_insert, alist_lookup, h1]
    · by_cases h1 : k0 = k'
      · subst h1
        have hk : ¬ k = k0 := fun h => h0 h.symm
        simp [dict_insert, alist_lookup, h0, hk]
      · simp [dict_insert, alist_lookup, h0, h1, ih]

theorem dict_insert_absent {κ V : Type} [DecidableEq κ]
    (m : List (κ × V)) (k : κ) (v : V) (h : alist_lookup m k = none) :
    dict_insert m k v = m ++ [(k, v)] := by
  induction m with
  | nil => simp [dict_insert]
  | cons p t ih =>
    obtain ⟨k0, v0⟩ := p
    by_cases h0 : k0 = k
    · simp [alist_lookup, h0] at h
    · simp only [alist_lookup, h0, if_false] at h
      simp [dict_insert, h0, ih h]

theorem alist_lookup_append {κ V : Type} [DecidableEq κ]
    (m1 m2 : List (κ × V)) (k : κ) :
    alist_lookup (m1 ++ m2) k =
      match alist_lookup m1 k with
      | some v => some v
      | none => alist_lookup m2 k := by
  induction m1 with
  | nil => simp [alist_lookup]
  | cons p t ih =>
    obtain ⟨k0, v0⟩ := p
    by_cases h0 : k0 = k
    · simp [alist_lookup, h0]
    · simp [alist_lookup, h0, ih]

theorem alist_lookup_mem {κ V : Type} [DecidableEq κ]
    {m : List (κ × V)} {k : κ} {v : V} (h : alist_lookup m k = some v) :
    (k, v) ∈ m := by
  induction m with
  | nil => simp [alist_lookup] at h
  | cons p t ih =>
    obtain ⟨k0, v0⟩ := p
    by_cases h0 : k0 = k
    · subst h0
      simp [alist_lookup] at h
      simp [h]
    · simp only [alist_lookup, h0, if_false] at h
      exact List.mem_cons_of_mem _ (ih h)

theorem alist_lookup_not_mem {κ V : Type} [DecidableEq κ]
    {m : List (κ × V)} {k : κ} (h : k ∉ m.map Prod.fst) :
    alist_lookup m k = none := by
  induction m with
  | nil => rfl
  | cons q t ih =>
    obtain ⟨k0, v0⟩ := q
    simp only [List.map_cons, List.mem_cons] at h
    push_neg at h
    have h0 : ¬ k0 = k := fun hh => h.1 (hh.symm)
    simp [alist_lookup, h0, ih h.2]

theorem mem_alist_lookup_isSome {κ V : Type} [DecidableEq κ]
    {m : List (κ × V)} {p : κ × V} (h : p ∈ m) :
    (alist_lookup m p.1).isSome := by
  induction m with
  | nil => simp at h
  | cons q t ih =>
    obtain ⟨k0, v0⟩ := q
    by_cases h0 : k0 = p.1
    · simp [alist_lookup, h0]
    · rcases List.mem_cons.mp h with h | h
      · exact absurd (congrArg Prod.fst h.symm) h0
      · simp [alist_lookup, h0, ih h]

theorem mem_dict_insert {κ V : Type} [DecidableEq κ]
    {m : List (κ × V)} {k : κ} {v : V} {p : κ × V}
    (h : p ∈ dict_insert m k v) : p ∈ m ∨ p = (k, v) := by
  induction m with
  | nil => simp [dict_insert] at h; simp [h]
  | cons q t ih =>
    obtain ⟨k0, v0⟩ := q
    by_cases h0 : k0 = k
    · simp only [dict_insert, h0, if_true] at h
      rcases List.mem_cons.mp h with h | h
      · right; exact h
      · left; exact List.mem_cons_of_mem _ h
    · simp only [dict_insert, h0, if_false] at h
      rcases List.mem_cons.mp h with h | h
      · left; simp [h]
      · rcases ih h with h | h
        · left; exact List.mem_cons_of_mem _ h
        · right; exact h

theorem alist_lookup_remove_key_ne {κ V : Type} [DecidableEq κ]
    (m : List (κ × V)) (k k' : κ) (h : k' ≠ k) :
    alist_lookup (remove_key m k) k' = alist_lookup m k' := by
  induction m with
  | nil => simp [remove_key]
  | cons p t ih =>
    obtain ⟨k0, v0⟩ := p
    by_cases h0 : k0 = k
    · subst h0
      have : ¬ k0 = k' := fun hh => h (hh.symm)
      simp [remove_key, alist_lookup, this]
    · simp only [remove_key, h0, if_false]
      by_cases h1 : k0 = k'
      · simp [alist_lookup, h1]
      · simp [alist_lookup, h1, ih]

theorem alist_lookup_remove_key_self {κ V : Type} [DecidableEq κ]
    (m : List (κ × V)) (k : κ) (hnd : (m.map Prod.fst).Nodup) :
    alist_lookup (remove_key m k) k = none := by
  induction m with
  | nil => simp [remove_key, alist_lookup]
  | cons p t ih =>
    obtain ⟨k0, v0⟩ := p
    simp only [List.map_cons, List.nodup_cons] at hnd
    by_cases h0 : k0 = k
    · subst h0
      simp only [remove_key, if_true]
      exact alist_lookup_not_mem hnd.1
    · simp only [remove_key, h0, if_false, alist_lookup]
      exact ih hnd.2

/- ------------------------------------------------------------------ -/
/- Lemmas: business-day arithmetic                                     -/
/- ------------------------------------------------------------------ -/

/-- Number of consecutive non-business days immediately after `d` (0, 1 or
2); the decreasing component of the loop measure. -/
def bus_pad (d : Nat) : Nat :=
  if weekday (d + 1) < 5 then 0 else if weekday (d + 2) < 5 then 1 else 2

theorem bus_pad_le_two (d : Nat) : bus_pad d ≤ 2 := by
  unfold bus_pad; split <;> [omega; skip]; split <;> omega

theorem bus_loop_stop (fuel d added target : Nat) (h : ¬ added < target) :
    bus_loop fuel d added target = d := by
  cases fuel with
  | zero => rfl
  | succ fuel => simp [bus_loop, h]

theorem bus_pad_decrease (d : Nat) (h : ¬ weekday (d + 1) < 5) :
    bus_pad (d + 1) < bus_pad d := by
  unfold bus_pad weekday at *
  split_ifs <;> omega

theorem bus_loop_spec (fuel : Nat) : ∀ d added target : Nat,
    added < target → 3 * (target - added) + bus_pad d ≤ fuel →
    weekday (bus_loop fuel d added target) < 5 ∧ d < bus_loop fuel d added target := by
  induction fuel with
  | zero =>
    intro d added target hlt hfuel
    exact absurd hfuel (by omega)
  | succ fuel ih =>
    intro d added target hlt hfuel
    simp only [bus_loop, hlt, if_true]
    by_cases hw : weekday (d + 1) < 5
    · simp only [hw, if_true]
      by_cases hlt2 : added + 1 < target
      · have hpad : bus_pad (d + 1) ≤ 2 := bus_pad_le_two _
        have := ih (d + 1) (added + 1) target hlt2 (by omega)
        exact ⟨this.1, by omega⟩
      · rw [bus_loop_stop fuel (d + 1) (added + 1) target hlt2]
        exact ⟨hw, by omega⟩
    · simp only [hw, if_false]
      have hdec := bus_pad_decrease d hw
      have := ih (d + 1) added target hlt (by omega)
      exact ⟨this.1, by omega⟩

theorem add_business_days_nonpos (d : Nat) (n : Int) (h : n ≤ 0) :
    add_business_days d n = d := by
  simp [add_business_days, h]

theorem add_business_days_pos (d : Nat) (n : Int) (h : 0 < n) :
    weekday (add_business_days d n) < 5 ∧ d < add_business_days d n := by
  have hn : ¬ n ≤ 0 := by omega
  have htn : 0 < n.toNat := by omega
  simp only [add_business_days, hn, if_false]
  exact bus_loop_spec _ d 0 n.toNat htn
    (by have := bus_pad_le_two d; omega)

theorem add_business_days_one_gt (d : Nat) : d < add_business_days d 1 :=
  (add_business_days_pos d 1 (by omega)).2

/- ------------------------------------------------------------------ -/
/- Lemmas: stripping is idempotent                                     -/
/- ------------------------------------------------------------------ -/

theorem dropWhile_drop_again {α : Type} (p : α → Bool) (l : List α) :
    (l.dropWhile p).dropWhile p = l.dropWhile p := by
  induction l with
  | nil => rfl
  | cons c t ih =>
    by_cases h : p c
    · simp [List.dropWhile_cons, h, ih]
    · simp [List.dropWhile_cons, h]

theorem dropWhile_append_last {α : Type} (p : α → Bool) (c : α) (h : ¬ p c)
    (u : List α) : ∃ w, (u ++ [c]).dropWhile p = w ++ [c] := by
  induction u with
  | nil => exact ⟨[], by simp [List.dropWhile_cons, h]⟩
  | cons a u ih =>
    by_cases ha : p a
    · obtain ⟨w, hw⟩ := ih
      exact ⟨w, by simp [List.dropWhile_cons, ha, hw]⟩
    · exact ⟨a :: u, by simp [List.dropWhile_cons, ha]⟩

theorem trim_left_shape (xs : List Char) :
    trim_left xs = [] ∨
      ∃ c t, trim_left xs = c :: t ∧ ¬ is_py_space c := by
  induction xs with
  | nil => left; rfl
  | cons c t ih =>
    by_cases h : is_py_space c
    · simpa [trim_left, List.dropWhile_cons, h] using ih
    · right; exact ⟨c, t, by simp [trim_left, List.dropWhile_cons, h], h⟩

theorem trim_left_no_space_head (c : Char) (t : List Char) (h : ¬ is_py_space c) :
    trim_left (c :: t) = c :: t := by
  simp [trim_left, List.dropWhile_cons, h]

theorem py_strip_list_idem (xs : List Char) :
    py_strip_list (py_strip_list xs) = py_strip_list xs := by
  unfold py_strip_list
  have hrev : ∀ ys : List Char,
      ((trim_left ys).reverse.dropWhile is_py_space).reverse.reverse
        = (trim_left ys).reverse.dropWhile is_py_space := by
    intro ys; rw [List.reverse_reverse]
  set A := trim_left xs with hA
  set B := (A.reverse.dropWhile is_py_space).reverse with hB
  have step1 : trim_left B = B := by
    rcases trim_left_shape xs with h | ⟨c, t, hct, hc⟩
    · rw [hB, hA, h]; rfl
    · rw [hB, hA, hct]
      obtain ⟨w, hw⟩ := dropWhile_append_last is_py_space c hc t.reverse
      rw [show (c :: t).reverse = t.reverse ++ [c] by simp, hw]
      rw [List.reverse_append]
      exact trim_left_no_space_head c w.reverse hc
  have step2 : B.reverse.dropWhile is_py_space = B.reverse := by
    rw [hB, List.reverse_reverse]
    exact dropWhile_drop_again _ _
  rw [step1, step2, List.reverse_reverse]

theorem string_toList_mk (l : List Char) : (String.mk l).toList = l := rfl

theorem py_strip_mk (l : List Char) :
    py_strip (String.mk l) = String.mk (py_strip_list l) := rfl

theorem normalize_whitespace_stripped (s : String) :
    py_strip (normalize_whitespace s) = normalize_whitespace s := by
  unfold normalize_whitespace
  rw [py_strip_mk, py_strip_list_idem]

theorem conjunction_junction_stripped (s : String) :
    py_strip (conjunction_junction s) = conjunction_junction s :=
  normalize_whitespace_stripped _

/- ------------------------------------------------------------------ -/
/- Lemmas: bucket keys produced by the parsing state machine           -/
/- ------------------------------------------------------------------ -/

theorem header_map_canon (k canon : String)
    (h : alist_lookup header_map k = some canon) : canon ∈ bucket_order := by
  simp only [header_map, alist_lookup] at h
  split_ifs at h <;> simp_all [bucket_order]

theorem mem_b_setdefault {b : List (String × List String)} {k : String}
    {p : String × List String} (h : p ∈ b_setdefault b k) :
    p ∈ b ∨ p = (k, []) := by
  unfold b_setdefault at h
  split at h
  · left; exact h
  · rcases List.mem_append.mp h with h | h
    · left; exact h
    · right; simpa using h

theorem mem_b_append {b : List (String × List String)} {k tok : String}
    {p : String × List String} (h : p ∈ b_append b k tok) :
    ∃ q ∈ b, q.1 = p.1 := by
  induction b with
  | nil => simp [b_append] at h
  | cons q t ih =>
    obtain ⟨k0, toks⟩ := q
    by_cases h0 : k0 = k
    · subst h0
      simp only [b_append, if_true] at h
      rcases List.mem_cons.mp h with h | h
      · exact ⟨(k0, toks), by simp, by simp [h]⟩
      · exact ⟨p, List.mem_cons_of_mem _ h, rfl⟩
    · simp only [b_append, h0, if_false] at h
      rcases List.mem_cons.mp h with h | h
      · exact ⟨(k0, toks), by simp, by simp [h]⟩
      · obtain ⟨q', hq', hk'⟩ := ih h
        exact ⟨q', List.mem_cons_of_mem _ hq', hk'⟩

theorem meal_step_keys (st : MealState) (mi : RawMenuItem)
    (hin : ∀ p ∈ st.buckets, p.1 ∈ bucket_order) :
    ∀ p ∈ (meal_step st mi).buckets, p.1 ∈ bucket_order := by
  intro p hp
  unfold meal_step at hp
  by_cases hname : food_name mi = ""
  · simp only [hname, if_true] at hp
    exact hin p hp
  · simp only [hname, if_false] at hp
    set k := py_lower (py_strip (food_name mi)) with hk
    rcases hmap : alist_lookup header_map k with _ | canon
    · simp only [hmap] at hp
      rcases hcur : st.current with _ | c
      · simp only [hcur] at hp
        rcases mem_b_append hp with ⟨q, hq, hq1⟩
        rcases mem_b_setdefault hq with hq | hq
        · rw [← hq1]; exact hin q hq
        · rw [← hq1, hq]
          split <;> simp [bucket_order]
      · simp only [hcur] at hp
        by_cases hce : c = ""
        · simp only [hce, if_true] at hp
          rcases mem_b_append hp with ⟨q, hq, hq1⟩
          rcases mem_b_setdefault hq with hq | hq
          · rw [← hq1]; exact hin q hq
          · rw [← hq1, hq]
            split <;> simp [bucket_order]
        · simp only [hce, if_false] at hp
          rcases mem_b_append hp with ⟨q, hq, hq1⟩
          rw [← hq1]; exact hin q hq
    · simp only [hmap] at hp
      rcases mem_b_setdefault hp with hp | hp
      · exact hin p hp
      · rw [hp]; exact header_map_canon k canon hmap

theorem foldl_meal_step_keys (items : List RawMenuItem) :
    ∀ st : MealState, (∀ p ∈ st.buckets, p.1 ∈ bucket_order) →
    ∀ p ∈ (items.foldl meal_step st).buckets, p.1 ∈ bucket_order := by
  induction items with
  | nil => intro st h; exact h
  | cons mi rest ih =>
    intro st h
    exact ih (meal_step st mi) (meal_step_keys st mi h)

theorem parse_meals_mem (items : List RawMenuItem) :
    ∀ p ∈ parse_meals items,
      p.1 ∈ bucket_order ∧ ∃ w, p.2 = conjunction_junction w := by
  have hkeys := foldl_meal_step_keys items ⟨[], none⟩ (by simp)
  have main : ∀ (bs : List (String × List String))
      (acc : List (String × String)),
      (∀ p ∈ acc, p.1 ∈ bucket_order ∧ ∃ w, p.2 = conjunction_junction w) →
      (∀ b ∈ bs, b.1 ∈ bucket_order) →
      ∀ p ∈ bs.foldl
        (fun res p =>
          if p.2 = [] then res
          else dict_insert res p.1 (conjunction_junction (join_comma_space p.2))) acc,
        p.1 ∈ bucket_order ∧ ∃ w, p.2 = conjunction_junction w := by
    intro bs
    induction bs with
    | nil => intro acc hacc _ p hp; exact hacc p hp
    | cons b t ih =>
      intro acc hacc hbs p hp
      simp only [List.foldl_cons] at hp
      by_cases hb2 : b.2 = []
      · simp only [hb2, if_true] at hp
        exact ih acc hacc (fun q hq => hbs q (List.mem_cons_of_mem _ hq)) p hp
      · simp only [hb2, if_false] at hp
        refine ih _ ?_ (fun q hq => hbs q (List.mem_cons_of_mem _ hq)) p hp
        intro q hq
        rcases mem_dict_insert hq with hq | hq
        · exact hacc q hq
        · subst hq
          exact ⟨hbs b (by simp), join_comma_space b.2, rfl⟩
  intro p hp
  unfold parse_meals at hp
  exact main _ [] (by simp) hkeys p hp

theorem parse_meals_no_school (items : List RawMenuItem) :
    alist_lookup (parse_meals items) "No school" = none := by
  rcases h : alist_lookup (parse_meals items) "No school" with _ | v
  · rfl
  · have hm := alist_lookup_mem h
    have := (parse_meals_mem items _ hm).1
    simp [bucket_order] at this

theorem parse_meals_value_stripped (items : List RawMenuItem) (k v : String)
    (h : alist_lookup (parse_meals items) k = some v) : py_strip v = v := by
  have hm := alist_lookup_mem h
  obtain ⟨-, w, hw⟩ := parse_meals_mem items _ hm
  simp only at hw
  rw [hw]
  exact conjunction_junction_stripped w

/- ------------------------------------------------------------------ -/
/- Lemmas: day ordering and the implicit-closure conversion            -/
/- ------------------------------------------------------------------ -/

theorem odm_first_pass (dm : List (String × String)) :
    ∀ (ks : List String) (acc : List (String × String)), ks.Nodup →
      (∀ k ∈ ks, alist_lookup acc k = none) →
      ks.foldl
        (fun acc k =>
          match alist_lookup dm k with
          | some v => dict_insert acc k v
          | none => acc) acc
        = acc ++ ks.filterMap (fun k => (alist_lookup dm k).map (fun v => (k, v))) := by
  intro ks
  induction ks with
  | nil => intro acc _ _; simp
  | cons k t ih =>
    intro acc hnd habs
    rcases hdm : alist_lookup dm k with _ | v
    · simp only [List.foldl_cons, List.filterMap_cons, hdm]
      exact ih acc (List.nodup_cons.mp hnd).2
        (fun k' hk' => habs k' (List.mem_cons_of_mem _ hk'))
    · simp only [List.foldl_cons, List.filterMap_cons, hdm, Option.map_some]
      have habs0 : alist_lookup acc k = none := habs k (by simp)
      have hnext : ∀ k' ∈ t, alist_lookup (acc ++ [(k, v)]) k' = none := by
        intro k' hk'
        rw [alist_lookup_append]
        rw [habs k' (List.mem_cons_of_mem _ hk')]
        have hne : ¬ k = k' := fun h => (List.nodup_cons.mp hnd).1 (h ▸ hk')
        simp [alist_lookup, hne]
      rw [dict_insert_absent acc k v habs0]
      rw [ih (acc ++ [(k, v)]) (List.nodup_cons.mp hnd).2 hnext]
      simp

theorem odm_second_pass (dm' : List (String × String)) :
    ∀ acc : List (String × String),
      (∀ p ∈ dm', (alist_lookup acc p.1).isSome) →
      dm'.foldl (fun acc p => if (alist_lookup acc p.1).isSome then acc else acc ++ [p]) acc
        = acc := by
  induction dm' with
  | nil => intro acc _; rfl
  | cons p t ih =>
    intro acc h
    simp only [List.foldl_cons, h p (by simp), if_true]
    exact ih acc (fun q hq => h q (List.mem_cons_of_mem _ hq))

theorem filterMap_lookup_fst (dm : List (String × String)) (ks : List String) :
    (ks.filterMap (fun k => (alist_lookup dm k).map (fun v => (k, v)))).map Prod.fst
      = ks.filter (fun k => (alist_lookup dm k).isSome) := by
  induction ks with
  | nil => rfl
  | cons k t ih =>
    rcases hdm : alist_lookup dm k with _ | v
    · simp [List.filterMap_cons, List.filter_cons, hdm, ih]
    · simp [List.filterMap_cons, List.filter_cons, hdm, ih]

theorem order_day_menu_canonical (dm : List (String × String))
    (h : ∀ p ∈ dm, p.1 ∈ bucket_order) :
    order_day_menu dm
      = bucket_order.filterMap (fun k => (alist_lookup dm k).map (fun v => (k, v))) := by
  unfold order_day_menu
  rw [odm_first_pass dm bucket_order [] (by decide) (by intro k _; rfl)]
  simp only [List.nil_append]
  apply odm_second_pass
  intro p hp
  have hk : p.1 ∈ bucket_order := h p hp
  have hsome : (alist_lookup dm p.1).isSome := mem_alist_lookup_isSome hp
  rcases hlk : alist_lookup dm p.1 with _ | w
  · rw [hlk] at hsome; simp at hsome
  · apply mem_alist_lookup_isSome (p := (p.1, w))
    simp only [List.mem_filterMap]
    exact ⟨p.1, hk, by rw [hlk]; rfl⟩

theorem order_day_menu_no_school (r : String) :
    order_day_menu [("No school", r)] = [("No school", r)] := rfl

theorem maybe_convert_cases (meals : List (String × String)) :
    maybe_convert_to_no_school meals = meals ∨
      ∃ r, maybe_convert_to_no_school meals = [("No school", r)] := by
  dsimp only [maybe_convert_to_no_school]
  split_ifs <;> first
    | (left; rfl)
    | (right; exact ⟨_, rfl⟩)

theorem parse_day_explicit (items : List RawMenuItem) (nm : String)
    (h : explicit_no_school items = some nm) :
    parse_day items = [("No school", nm)] := by
  unfold parse_day; rw [h]

theorem parse_day_meals_eq (items : List RawMenuItem)
    (h1 : explicit_no_school items = none) (h2 : parse_meals items ≠ []) :
    parse_day items
      = order_day_menu (maybe_convert_to_no_school (parse_meals items)) := by
  unfold parse_day; rw [h1]
  exact if_pos h2

theorem parse_day_no_data (items : List RawMenuItem)
    (h1 : explicit_no_school items = none) (h2 : parse_meals items = []) :
    parse_day items = [("No data", "Menu not available")] := by
  unfold parse_day; rw [h1]
  exact if_neg (by simpa using h2)

/-- The three possible shapes of a parsed day: a canonical-bucket mapping in
fixed order, a sole No school entry, or the sole No data placeholder. -/
theorem parse_day_master (items : List RawMenuItem) :
    (∃ dm, (∀ p ∈ dm, p.1 ∈ bucket_order) ∧
      parse_day items
        = bucket_order.filterMap (fun k => (alist_lookup dm k).map (fun v => (k, v))))
    ∨ (∃ r, parse_day items = [("No school", r)])
    ∨ parse_day items = [("No data", "Menu not available")] := by
  rcases hex : explicit_no_school items with _ | nm
  · by_cases hm : parse_meals items = []
    · right; right; exact parse_day_no_data items hex hm
    · rw [parse_day_meals_eq items hex hm]
      rcases maybe_convert_cases (parse_meals items) with hconv | ⟨r, hconv⟩
      · left
        refine ⟨parse_meals items, fun p hp => (parse_meals_mem items p hp).1, ?_⟩
        rw [hconv]
        exact order_day_menu_canonical _ (fun p hp => (parse_meals_mem items p hp).1)
      · right; left
        exact ⟨r, by rw [hconv, order_day_menu_no_school]⟩
  · right; left; exact ⟨nm, parse_day_explicit items nm hex⟩

theorem parse_week_lookup (w : NutriWeek) (dk : String)
    (v : List (String × String))
    (h : alist_lookup (parse_week w) dk = some v) : ∃ items, v = parse_day items := by
  unfold parse_week at h
  have main : ∀ (days : List NutriDay) (acc : List (String × List (String × String))),
      (∀ dk' v', alist_lookup acc dk' = some v' → ∃ items, v' = parse_day items) →
      ∀ dk' v', alist_lookup (days.foldl
        (fun out day =>
          match day.date with
          | none => out
          | some dk => if dk = "" then out else dict_insert out dk (parse_day day.menu_items))
        acc) dk' = some v' → ∃ items, v' = parse_day items := by
    intro days
    induction days with
    | nil => intro acc hacc dk' v' h'; exact hacc dk' v' h'
    | cons day rest ih =>
      intro acc hacc dk' v' h'
      simp only [List.foldl_cons] at h'
      rcases hdate : day.date with _ | dks
      · rw [hdate] at h'
        exact ih acc hacc dk' v' h'
      · rw [hdate] at h'
        by_cases hemp : dks = ""
        · simp only [hemp, if_true] at h'
          exact ih acc hacc dk' v' h'
        · simp only [hemp, if_false] at h'
          refine ih _ ?_ dk' v' h'
          intro dk2 v2 h2
          rw [alist_lookup_dict_insert] at h2
          split_ifs at h2 with heq
          · exact ⟨day.menu_items, (Option.some.injEq _ _).mp h2.symm⟩
          · exact hacc dk2 v2 h2
  exact main w.days [] (by intro dk' v' h'; simp [alist_lookup] at h') dk v h

/- ------------------------------------------------------------------ -/
/- Lemmas: cache and get_week unfolding equations                      -/
/- ------------------------------------------------------------------ -/

theorem cache_get_none {ttl : Int} {store : List (Nat × (Int × WeekMenu))} {key : Nat}
    {now : Int} (h : alist_lookup store key = none) :
    cache_get ttl store key now = (none, store) := by
  unfold cache_get; rw [h]

theorem cache_get_fresh {ttl : Int} {store : List (Nat × (Int × WeekMenu))} {key : Nat}
    {now ts : Int} {v : WeekMenu} (h : alist_lookup store key = some (ts, v))
    (hfresh : ¬ now - ts > ttl) :
    cache_get ttl store key now = (some v, store) := by
  unfold cache_get; rw [h]; simp [hfresh]

theorem cache_get_expired {ttl : Int} {store : List (Nat × (Int × WeekMenu))} {key : Nat}
    {now ts : Int} {v : WeekMenu} (h : alist_lookup store key = some (ts, v))
    (hexp : now - ts > ttl) :
    cache_get ttl store key now = (none, remove_key store key) := by
  unfold cache_get; rw [h]; simp [hexp]

theorem fetch_and_store_calls (upstream : Nat → Option NutriWeek)
    (store : List (Nat × (Int × WeekMenu))) (calls monday : Nat) (now : Int) :
    (fetch_and_store upstream store calls monday now).2.calls = calls + 1 := by
  unfold fetch_and_store
  rcases upstream monday with _ | resp <;> rfl

theorem get_week_miss {upstream : Nat → Option NutriWeek} {ttl : Int} {st : FetchState}
    {any_day : Nat} {now : Int}
    (h : alist_lookup st.store (week_start any_day) = none) :
    get_week upstream ttl st any_day now
      = fetch_and_store upstream st.store st.calls (week_start any_day) now := by
  simp only [get_week]
  rw [cache_get_none h]

theorem get_week_expired {upstream : Nat → Option NutriWeek} {ttl : Int} {st : FetchState}
    {any_day : Nat} {now ts : Int} {v : WeekMenu}
    (h : alist_lookup st.store (week_start any_day) = some (ts, v))
    (hexp : now - ts > ttl) :
    get_week upstream ttl st any_day now
      = fetch_and_store upstream (remove_key st.store (week_start any_day)) st.calls
          (week_start any_day) now := by
  simp only [get_week]
  rw [cache_get_expired h hexp]

theorem get_week_hit_nonempty {upstream : Nat → Option NutriWeek} {ttl : Int}
    {st : FetchState} {any_day : Nat} {now ts : Int} {v : WeekMenu}
    (h : alist_lookup st.store (week_start any_day) = some (ts, v))
    (hfresh : ¬ now - ts > ttl) (hne : v ≠ []) :
    get_week upstream ttl st any_day now = (Except.ok v, ⟨st.store, st.calls⟩) := by
  simp only [get_week]
  rw [cache_get_fresh h hfresh]
  simp [hne]

theorem get_week_hit_empty {upstream : Nat → Option NutriWeek} {ttl : Int}
    {st : FetchState} {any_day : Nat} {now ts : Int}
    (h : alist_lookup st.store (week_start any_day) = some (ts, ([] : WeekMenu)))
    (hfresh : ¬ now - ts > ttl) :
    get_week upstream ttl st any_day now
      = fetch_and_store upstream st.store st.calls (week_start any_day) now := by
  simp only [get_week]
  rw [cache_get_fresh h hfresh]
  simp

/- ------------------------------------------------------------------ -/
/- Claim theorems                                                      -/
/- ------------------------------------------------------------------ -/

/-- C8: for every date `d`, `addBusinessDays(d, n) = d` for every `n <= 0`
(negative `n` raises no error), and for every `n > 0` the (total, hence
terminating) function lands on a Monday-through-Friday weekday strictly
greater than `d` — `d` itself is never counted. -/
theorem claim_c8 :
    (∀ (d : Nat) (n : Int), n ≤ 0 → add_business_days d n = d)
    ∧ (∀ (d : Nat) (n : Int), 0 < n →
        weekday (add_business_days d n) < 5 ∧ d < add_business_days d n) :=
  ⟨add_business_days_nonpos, add_business_days_pos⟩

theorem claim_c8_witness :
    ((-1 : Int) ≤ 0 ∧ add_business_days 3 (-1) = 3)
    ∧ ((0 : Int) < 2 ∧ (weekday (add_business_days 3 2) < 5 ∧ 3 < add_business_days 3 2)) :=
  ⟨⟨by decide, claim_c8.1 3 (-1) (by decide)⟩,
   ⟨by decide, claim_c8.2 3 2 (by decide)⟩⟩

/-- C9: the conjunction cleanup pipeline is a pure function applying its
four steps in the fixed source order, and maps the three example inputs as
the claim states. -/
theorem claim_c9 :
    (∀ s, conjunction_junction s
        = normalize_whitespace
            (remove_commas_around_conjunctions
              (replace_w_slash_with_with (ensure_space_after_w_slash s))))
    ∧ conjunction_junction "Chicken w/Rice" = "Chicken with Rice"
    ∧ conjunction_junction "A, and, B" = "A and B"
    ∧ conjunction_junction "Taco  Tuesday" = "Taco Tuesday" :=
  ⟨fun _ => rfl, by decide, by decide, by decide⟩

/-- C2 (amended): display-name extraction probes the upstream shapes in the
fixed order nested `food.name`, flat `name` then `text`, doubly-nested
`menu_item.food.name` — but the nested `food.name` probe returns its trimmed
string whenever the field is a string, even when it is empty after trimming
(masking the later probes); only the flat probes skip values that trim to
empty. -/
theorem claim_c2_amended (mi : RawMenuItem) :
    (∀ n, mi.food = some (some n) → food_name mi = py_strip n)
    ∧ ((mi.food = none ∨ mi.food = some none) →
        ((∀ v, mi.name = some v → py_strip v ≠ "" → food_name mi = py_strip v)
        ∧ ((mi.name = none ∨ ∃ v, mi.name = some v ∧ py_strip v = "") →
            ((∀ t, mi.text = some t → py_strip t ≠ "" → food_name mi = py_strip t)
            ∧ ((mi.text = none ∨ ∃ t, mi.text = some t ∧ py_strip t = "") →
                ((∀ n2, mi.menu_item = some (some n2) → food_name mi = py_strip n2)
                ∧ ((mi.menu_item = none ∨ mi.menu_item = some none) →
                    food_name mi = ""))))))) := by
  obtain ⟨f, nm, tx, m⟩ := mi
  constructor
  · rintro n rfl; rfl
  · rintro (rfl | rfl) <;>
    · constructor
      · rintro v rfl hne
        simp [food_name, str_probe, hne]
      · rintro (rfl | ⟨v, rfl, hv⟩) <;>
        · constructor
          · rintro t rfl hne
            simp [food_name, str_probe, *]
          · rintro (rfl | ⟨t, rfl, ht⟩) <;>
            · constructor
              · rintro n2 rfl
                simp [food_name, str_probe, *]
              · rintro (rfl | rfl) <;> simp [food_name, str_probe, *]

/-- C2 counterexample: the item has a `food.name` that is present but empty
after trimming, and a flat `name` "Pizza" that a later probe would return;
the claim then demands "Pizza", but the code returns the empty string. -/
theorem claim_c2_counterexample :
    food_name { food := some (some "  "), name := some "Pizza",
                text := none, menu_item := none } = ""
    ∧ py_strip "  " = ""
    ∧ py_strip "Pizza" = "Pizza"
    ∧ food_name { food := some (some "  "), name := some "Pizza",
                  text := none, menu_item := none } ≠ "Pizza" := by
  refine ⟨by decide, by decide, by decide, by decide⟩

theorem claim_c2_witness :
    food_name { food := none, name := some " ", text := some " Tots ",
                menu_item := none } = py_strip " Tots " :=
  (((claim_c2_amended _).2 (Or.inl rfl)).2
      (Or.inr ⟨" ", rfl, by decide⟩)).1 " Tots " rfl (by decide)

/-- C7: `dayAtOffset(base, daysAhead)` returns a single-entry mapping keyed
by `target = addBusinessDays(base, daysAhead)`; when the target is absent
from the fetched week's data the entry is the `"No data"` placeholder (the
function is total, so no error is ever raised for the missing day). -/
theorem claim_c7 (getW : GetWeekFn) (base : Nat) (days_ahead : Int) :
    ∃ v, day_at_offset getW base days_ahead
        = [(add_business_days base days_ahead, v)]
      ∧ (alist_lookup (getW (add_business_days base days_ahead))
            (add_business_days base days_ahead) = none → v = no_data_day)
      ∧ (∀ w, alist_lookup (getW (add_business_days base days_ahead))
            (add_business_days base days_ahead) = some w → v = w) := by
  unfold day_at_offset svc_day
  rcases h : alist_lookup (getW (add_business_days base days_ahead))
      (add_business_days base days_ahead) with _ | w
  · refine ⟨no_data_day, by simp [h], fun _ => rfl, ?_⟩
    intro w hw
    cases hw
  · refine ⟨w, by simp [h], ?_, ?_⟩
    · intro hn
      cases hn
    · intro w' hw'
      exact ((Option.some.injEq _ _).mp hw')

theorem claim_c7_witness :
    day_at_offset (fun _ => []) 1 0 = [(1, no_data_day)] := by
  obtain ⟨v, he, hnone, -⟩ := claim_c7 (fun _ => []) 1 0
  rw [he, hnone rfl]
  rfl

/-- Helper for C6: the first explicitly labelled "no school" item is found
whenever any item in the list is so labelled. -/
theorem explicit_no_school_found (items : List RawMenuItem) (mi : RawMenuItem)
    (hmem : mi ∈ items)
    (hns : leads_with "no school".toList (py_lower (food_name mi)).toList = true) :
    ∃ nm, explicit_no_school items = some nm
      ∧ leads_with "no school".toList (py_lower nm).toList = true
      ∧ ∃ mi0 ∈ items, food_name mi0 = nm := by
  induction items with
  | nil => simp at hmem
  | cons hd tl ih =>
    by_cases hhd : food_name hd ≠ ""
        ∧ leads_with "no school".toList (py_lower (food_name hd)).toList = true
    · refine ⟨food_name hd, ?_, hhd.2, hd, by simp, rfl⟩
      simp only [explicit_no_school, List.findSome?_cons]
      rw [if_pos hhd]
    · rcases List.mem_cons.mp hmem with rfl | hmem2
      · exfalso
        apply hhd
        refine ⟨?_, hns⟩
        intro h0
        rw [h0] at hns
        exact absurd hns (by decide)
      · obtain ⟨nm, hens, hlw, mi0, hm0, hf0⟩ := ih hmem2
        refine ⟨nm, ?_, hlw, mi0, List.mem_cons_of_mem _ hm0, hf0⟩
        simp only [explicit_no_school, List.findSome?_cons]
        rw [if_neg hhd]
        exact hens

/-- C6: if any raw item's extracted display name case-insensitively starts
with "no school", the day parses to exactly the single `No school` entry
carrying a matching item's exact display name; bucket parsing is skipped,
and a week response records exactly that mapping for the day. -/
theorem claim_c6 (items : List RawMenuItem) (mi : RawMenuItem)
    (hmem : mi ∈ items)
    (hns : leads_with "no school".toList (py_lower (food_name mi)).toList = true) :
    ∃ nm, explicit_no_school items = some nm
      ∧ leads_with "no school".toList (py_lower nm).toList = true
      ∧ (∃ mi0 ∈ items, food_name mi0 = nm)
      ∧ parse_day items = [("No school", nm)]
      ∧ (∀ dk : String, dk ≠ "" →
          alist_lookup (parse_week ⟨[⟨some dk, items⟩]⟩) dk
            = some [("No school", nm)]) := by
  obtain ⟨nm, hens, hlw, hex⟩ := explicit_no_school_found items mi hmem hns
  refine ⟨nm, hens, hlw, hex, parse_day_explicit items nm hens, ?_⟩
  intro dk hdk
  have hpw : parse_week ⟨[⟨some dk, items⟩]⟩ = [(dk, parse_day items)] := by
    simp only [parse_week, List.foldl_cons, List.foldl_nil]
    rw [if_neg hdk]
    rfl
  rw [hpw, parse_day_explicit items nm hens]
  simp [alist_lookup]

theorem claim_c6_witness :
    parse_day
        [⟨some (some "Pizza"), none, none, none⟩,
         ⟨some (some "No School - Staff Development"), none, none, none⟩]
      = [("No school", "No School - Staff Development")] := by
  obtain ⟨nm, hens, -, -, hpd, -⟩ :=
    claim_c6
      [⟨some (some "Pizza"), none, none, none⟩,
       ⟨some (some "No School - Staff Development"), none, none, none⟩]
      ⟨some (some "No School - Staff Development"), none, none, none⟩
      (by decide) (by decide)
  have h2 : explicit_no_school
      [⟨some (some "Pizza"), none, none, none⟩,
       ⟨some (some "No School - Staff Development"), none, none, none⟩]
      = some "No School - Staff Development" := by decide
  rw [hens] at h2
  rw [hpd, (Option.some.injEq _ _).mp h2]

/-- C3: for a bucketed day on which Lunch is the only non-empty bucket, the
buckets are replaced by the single `No school` entry carrying the Lunch text
exactly when the Lunch text contains a closure keyword (case-insensitively)
or is at most 80 characters long; otherwise the meal buckets are returned
unchanged. -/
theorem claim_c3 (items : List RawMenuItem) (l : String)
    (hL : alist_lookup (parse_meals items) "Lunch" = some l)
    (hlne : py_strip l ≠ "")
    (hB : py_strip ((alist_lookup (parse_meals items) "Breakfast").getD "") = "")
    (hG : py_strip ((alist_lookup (parse_meals items) "Grab & Go").getD "") = "")
    (hD : py_strip ((alist_lookup (parse_meals items) "Deli Entree").getD "") = "") :
    ((closure_keywords.any (fun kw => sub_in kw.toList (py_lower l).toList) = true
        ∨ l.length ≤ 80) →
      maybe_convert_to_no_school (parse_meals items) = [("No school", l)])
    ∧ (¬ (closure_keywords.any (fun kw => sub_in kw.toList (py_lower l).toList) = true
        ∨ l.length ≤ 80) →
      maybe_convert_to_no_school (parse_meals items) = parse_meals items) := by
  have hstr : py_strip l = l := parse_meals_value_stripped items _ _ hL
  have hne : parse_meals items ≠ [] := by
    intro h0
    rw [h0] at hL
    exact absurd hL (by simp [alist_lookup])
  have hns := parse_meals_no_school items
  have hlu : py_strip ((alist_lookup (parse_meals items) "Lunch").getD "") = l := by
    rw [hL]
    simpa using hstr
  have hcond : py_strip ((alist_lookup (parse_meals items) "Lunch").getD "") ≠ ""
      ∧ py_strip ((alist_lookup (parse_meals items) "Breakfast").getD "") = ""
      ∧ py_strip ((alist_lookup (parse_meals items) "Grab & Go").getD "") = ""
      ∧ py_strip ((alist_lookup (parse_meals items) "Deli Entree").getD "") = "" := by
    refine ⟨?_, hB, hG, hD⟩
    rw [hlu]
    rw [hstr] at hlne
    exact hlne
  constructor
  · intro hor
    simp only [maybe_convert_to_no_school]
    rw [if_neg hne, if_neg (by rw [hns]; simp), if_pos hcond, hlu]
    rcases hor with hkw | hlen
    · rw [if_pos hkw]
    · by_cases hkw : closure_keywords.any
          (fun kw => sub_in kw.toList (py_lower l).toList) = true
      · rw [if_pos hkw]
      · rw [if_neg hkw, if_pos hlen]
  · intro hnor
    push_neg at hnor
    simp only [maybe_convert_to_no_school]
    rw [if_neg hne, if_neg (by rw [hns]; simp), if_pos hcond, hlu]
    rw [if_neg (by simpa using hnor.1), if_neg (by omega)]

theorem claim_c3_witness :
    maybe_convert_to_no_school
        (parse_meals [⟨some (some "Teacher Work Day"), none, none, none⟩])
      = [("No school", "Teacher Work Day")] :=
  (claim_c3 [⟨some (some "Teacher Work Day"), none, none, none⟩]
      "Teacher Work Day" (by decide) (by decide) (by decide) (by decide)
      (by decide)).1 (Or.inl (by decide))

/-- C4: every day value of a parsed week lists canonical buckets first, in
the fixed order Breakfast, Lunch, Grab & Go, Deli Entree, before any
non-canonical key, and consists either of canonical meal buckets only or of
exactly one `No school`/`No data` sentinel as its sole entry; and the
insertion order Deli Entree, Breakfast, Lunch is reordered to Breakfast,
Lunch, Deli Entree. -/
theorem claim_c4 (w : NutriWeek) (dk : String) (v : List (String × String))
    (h : alist_lookup (parse_week w) dk = some v) :
    (∃ cs rs, v.map Prod.fst = cs ++ rs ∧ cs.Sublist bucket_order
      ∧ ∀ k ∈ rs, k ∉ bucket_order)
    ∧ ((∀ p ∈ v, p.1 ∈ bucket_order)
      ∨ (∃ r, v = [("No school", r)])
      ∨ v = [("No data", "Menu not available")])
    ∧ order_day_menu [("Deli Entree", "x"), ("Breakfast", "y"), ("Lunch", "z")]
        = [("Breakfast", "y"), ("Lunch", "z"), ("Deli Entree", "x")] := by
  obtain ⟨items, rfl⟩ := parse_week_lookup w dk v h
  refine ⟨?_, ?_, by decide⟩
  · rcases parse_day_master items with ⟨dm, hdm, heq⟩ | ⟨r, heq⟩ | heq
    · rw [heq]
      refine ⟨bucket_order.filter (fun k => (alist_lookup dm k).isSome), [],
        ?_, List.filter_sublist _, by simp⟩
      rw [filterMap_lookup_fst]
      simp
    · rw [heq]
      exact ⟨[], ["No school"], by simp, List.nil_sublist _, by decide⟩
    · rw [heq]
      exact ⟨[], ["No data"], by simp, List.nil_sublist _, by decide⟩
  · rcases parse_day_master items with ⟨dm, hdm, heq⟩ | ⟨r, heq⟩ | heq
    · left
      rw [heq]
      intro p hp
      obtain ⟨k, hk, hmap⟩ := List.mem_filterMap.mp hp
      rcases hlk : alist_lookup dm k with _ | w0
      · rw [hlk] at hmap
        cases hmap
      · rw [hlk] at hmap
        have hpk : (k, w0) = p := by simpa using hmap
        rw [← hpk]
        exact hk
    · right; left
      exact ⟨r, heq⟩
    · right; right
      exact heq

theorem claim_c4_witness :
    (∃ cs rs,
        ([("No data", "Menu not available")] : List (String × String)).map Prod.fst
          = cs ++ rs
        ∧ cs.Sublist bucket_order ∧ ∀ k ∈ rs, k ∉ bucket_order)
    ∧ ((∀ p ∈ ([("No data", "Menu not available")] : List (String × String)),
          p.1 ∈ bucket_order)
      ∨ (∃ r, ([("No data", "Menu not available")] : List (String × String))
          = [("No school", r)])
      ∨ ([("No data", "Menu not available")] : List (String × String))
          = [("No data", "Menu not available")])
    ∧ order_day_menu [("Deli Entree", "x"), ("Breakfast", "y"), ("Lunch", "z")]
        = [("Breakfast", "y"), ("Lunch", "z"), ("Deli Entree", "x")] :=
  claim_c4 ⟨[⟨some "d", []⟩]⟩ "d" [("No data", "Menu not available")] (by decide)

/- ------------------------------------------------------------------ -/
/- Lemmas: the business-day window                                     -/
/- ------------------------------------------------------------------ -/

theorem getLastD_concat_self (l : List Nat) (a d : Nat) :
    (l ++ [a]).getLastD d = a := by
  induction l with
  | nil => rfl
  | cons x t ih =>
    cases t with
    | nil => rfl
    | cons y u => simpa using ih

theorem build_dates_eq_spec : ∀ (fuel cnt : Nat) (acc : List Nat), acc ≠ [] →
    cnt ≤ acc.length + fuel →
    build_dates fuel cnt acc
      = acc ++ spec_window_dates (add_business_days (acc.getLastD 0) 1)
          (cnt - acc.length) := by
  intro fuel
  induction fuel with
  | zero =>
    intro cnt acc _ hle
    have h0 : cnt - acc.length = 0 := by omega
    simp [build_dates, h0, spec_window_dates]
  | succ fuel ih =>
    intro cnt acc hne hle
    by_cases hlt : acc.length < cnt
    · simp only [build_dates, hlt, if_true]
      rw [ih cnt (acc ++ [add_business_days (acc.getLastD 0) 1])
        (by simp) (by simp; omega)]
      rw [getLastD_concat_self]
      have hlen : (acc ++ [add_business_days (acc.getLastD 0) 1]).length
          = acc.length + 1 := by simp
      rw [hlen]
      have hm : cnt - acc.length = (cnt - (acc.length + 1)) + 1 := by omega
      rw [List.append_assoc, hm]
      simp [spec_window_dates]
    · simp only [build_dates, hlt, if_false]
      have h0 : cnt - acc.length = 0 := by omega
      simp [h0, spec_window_dates]

theorem window_dates_spec (base cnt : Nat) (h : 1 ≤ cnt) :
    build_dates cnt cnt [base] = spec_window_dates base cnt := by
  rw [build_dates_eq_spec cnt cnt [base] (by simp) (by simp)]
  have hm : cnt = (cnt - 1) + 1 := by omega
  rw [hm]
  simp [spec_window_dates]

theorem spec_window_dates_length : ∀ (n : Nat) (b : Nat),
    (spec_window_dates b n).length = n := by
  intro n
  induction n with
  | zero => intro b; rfl
  | succ n ih => intro b; simp [spec_window_dates, ih]

theorem spec_window_dates_head (n b : Nat) (h : 0 < n) :
    (spec_window_dates b n).head? = some b := by
  cases n with
  | zero => omega
  | succ n => rfl

theorem spec_window_dates_chain : ∀ (n : Nat) (b : Nat),
    List.Chain' (fun a c => c = add_business_days a 1) (spec_window_dates b n) := by
  intro n
  induction n with
  | zero => intro b; simp [spec_window_dates]
  | succ n ih =>
    intro b
    simp only [spec_window_dates]
    rw [List.chain'_cons']
    refine ⟨?_, ih _⟩
    intro y hy
    cases n with
    | zero => simp [spec_window_dates] at hy
    | succ n =>
      rw [spec_window_dates_head _ _ (by omega)] at hy
      simpa using hy.symm

theorem spec_window_dates_nodup (n b : Nat) : (spec_window_dates b n).Nodup := by
  have hchain : List.Chain' (· < ·) (spec_window_dates b n) :=
    (spec_window_dates_chain n b).imp
      (fun a c hab => by rw [hab]; exact add_business_days_one_gt a)
  have hpw : (spec_window_dates b n).Pairwise (· < ·) :=
    List.chain'_iff_pairwise.mp hchain
  exact hpw.imp Nat.ne_of_lt

theorem foldl_dict_insert_map {κ V : Type} [DecidableEq κ] (f : κ → V) :
    ∀ (ds : List κ) (acc : List (κ × V)), ds.Nodup →
      (∀ d ∈ ds, alist_lookup acc d = none) →
      ds.foldl (fun out d => dict_insert out d (f d)) acc
        = acc ++ ds.map (fun d => (d, f d)) := by
  intro ds
  induction ds with
  | nil => intro acc _ _; simp
  | cons d t ih =>
    intro acc hnd habs
    simp only [List.foldl_cons, List.map_cons]
    rw [dict_insert_absent acc d (f d) (habs d (by simp))]
    rw [ih (acc ++ [(d, f d)]) (List.nodup_cons.mp hnd).2 ?_]
    · simp
    · intro d' hd'
      rw [alist_lookup_append, habs d' (List.mem_cons_of_mem _ hd')]
      have hne : ¬ d = d' := fun h => (List.nodup_cons.mp hnd).1 (h ▸ hd')
      simp [alist_lookup, hne]

/-- The concrete fetcher of the C5 week-boundary example: week of Monday 1
(ordinals 4 = Thursday, 5 = Friday) and week of Monday 8. -/
def gw_c5_example : GetWeekFn := fun m =>
  if m = 1 then [(4, [("Lunch", "Pizza")]), (5, [("Lunch", "Tacos")])]
  else if m = 8 then [(8, [("Lunch", "Burgers")])]
  else []

/-- C5: `windowBusinessDays(base, count)` clamps the count to at least 1,
builds exactly that many dates starting at `base` and advancing one business
day at a time, and returns exactly those dates as keys in generation order,
each mapped to its day data from the merged weekly fetches or to the
`"No data"` placeholder when absent; for a Friday base (ordinal 5) and count
3 the keys are that Friday, the following Monday and Tuesday, merged from
the two distinct weekly fetches of Mondays 1 and 8. -/
theorem claim_c5 (getW : GetWeekFn) (base : Nat) (count : Int) :
    1 ≤ (max 1 count).toNat
    ∧ (spec_window_dates base (max 1 count).toNat).length = (max 1 count).toNat
    ∧ (spec_window_dates base (max 1 count).toNat).head? = some base
    ∧ List.Chain' (fun a c => c = add_business_days a 1)
        (spec_window_dates base (max 1 count).toNat)
    ∧ window_business_days getW base count
        = (spec_window_dates base (max 1 count).toNat).map
            (fun d =>
              (d, (alist_lookup
                    (merged_week_data getW
                      (spec_window_dates base (max 1 count).toNat)) d).getD
                  no_data_day))
    ∧ window_business_days gw_c5_example 5 3
        = [(5, [("Lunch", "Tacos")]), (8, [("Lunch", "Burgers")]),
           (9, [("No data", "Menu not available")])]
    ∧ sorted_mondays (spec_window_dates 5 3) = [1, 8]
    ∧ weekday 5 = 4 ∧ weekday 8 = 0 ∧ weekday 9 = 1 := by
  have hmax : (1 : Int) ≤ max 1 count := le_max_left _ _
  have hn : 1 ≤ (max 1 count).toNat := by omega
  refine ⟨hn, spec_window_dates_length _ _,
    spec_window_dates_head _ _ (by omega),
    spec_window_dates_chain _ _, ?_, by decide, by decide, by decide, by decide,
    by decide⟩
  simp only [window_business_days]
  rw [window_dates_spec base (max 1 count).toNat hn]
  rw [foldl_dict_insert_map _ _ [] (spec_window_dates_nodup _ _)
    (by intro d _; rfl)]
  simp

/-- C1 (amended): a first successful `getWeek(d)` stores the parsed week
under the week key of `weekStart(d)` and issues one upstream request; a
later call for the same week within the TTL is a cache hit returning the
identical `WeekMenu` with no new upstream request and no state change —
provided the stored `WeekMenu` is non-empty.  (For an empty `WeekMenu` the
truthiness test `if cached:` treats the hit as a miss and refetches; see the
counterexample.) -/
theorem claim_c1_amended (upstream : Nat → Option NutriWeek) (ttl : Int)
    (st : FetchState) (d d' : Nat) (now1 now2 : Int) (w : WeekMenu)
    (st1 : FetchState)
    (hweek : week_start d' = week_start d)
    (hfirst : alist_lookup st.store (week_start d) = none)
    (hcall1 : get_week upstream ttl st d now1 = (Except.ok w, st1)) :
    alist_lookup st1.store (week_start d) = some (now1, w)
    ∧ st1.calls = st.calls + 1
    ∧ (now1 ≤ now2 → now2 - now1 ≤ ttl → w ≠ [] →
        get_week upstream ttl st1 d' now2 = (Except.ok w, st1)) := by
  rw [get_week_miss hfirst] at hcall1
  unfold fetch_and_store at hcall1
  rcases hup : upstream (week_start d) with _ | resp
  · rw [hup] at hcall1
    simp at hcall1
  · rw [hup] at hcall1
    injection hcall1 with h1 h2
    injection h1 with hw
    subst hw
    subst h2
    refine ⟨?_, rfl, ?_⟩
    · unfold cache_set
      rw [alist_lookup_dict_insert]
      simp
    · intro hle httl hwne
      have hlk : alist_lookup
          (cache_set st.store (week_start d) now1 (parse_week resp))
          (week_start d') = some (now1, parse_week resp) := by
        rw [hweek]
        unfold cache_set
        rw [alist_lookup_dict_insert]
        simp
      rw [get_week_hit_nonempty hlk (by omega) hwne]

/-- C1 counterexample: with an upstream whose parsed week has zero day
entries, the first call stores the empty `WeekMenu` under the week key, yet
a second call for the same week well within the TTL issues a second
upstream request (calls goes from 1 to 2), because `if cached:` is false
for an empty dict. -/
theorem claim_c1_counterexample :
    (get_week (fun _ => some ⟨[]⟩) 100 ⟨[], 0⟩ 1 0).1 = Except.ok ([] : WeekMenu)
    ∧ (get_week (fun _ => some ⟨[]⟩) 100 ⟨[], 0⟩ 1 0).2.store
        = [(1, (0, ([] : WeekMenu)))]
    ∧ (get_week (fun _ => some ⟨[]⟩) 100 ⟨[], 0⟩ 1 0).2.calls = 1
    ∧ ((0 : Int) ≤ 10 ∧ (10 : Int) - 0 ≤ 100)
    ∧ (get_week (fun _ => some ⟨[]⟩) 100
        ((get_week (fun _ => some ⟨[]⟩) 100 ⟨[], 0⟩ 1 0).2) 1 10).2.calls = 2 :=
  ⟨rfl, rfl, rfl, by decide, rfl⟩

theorem claim_c1_witness :
    alist_lookup
        (get_week (fun _ => some ⟨[⟨some "x", []⟩]⟩) 100 ⟨[], 0⟩ 1 0).2.store 1
      = some (0, [("x", [("No data", "Menu not available")])])
    ∧ get_week (fun _ => some ⟨[⟨some "x", []⟩]⟩) 100
        (get_week (fun _ => some ⟨[⟨some "x", []⟩]⟩) 100 ⟨[], 0⟩ 1 0).2 3 10
      = (Except.ok [("x", [("No data", "Menu not available")])],
         (get_week (fun _ => some ⟨[⟨some "x", []⟩]⟩) 100 ⟨[], 0⟩ 1 0).2) := by
  have h := claim_c1_amended (fun _ => some ⟨[⟨some "x", []⟩]⟩) 100 ⟨[], 0⟩
    1 3 0 10 [("x", [("No data", "Menu not available")])] ⟨[(1, (0,
      [("x", [("No data", "Menu not available")])]))], 1⟩
    (by decide) (by decide) (by rfl)
  exact ⟨h.1, h.2.2 (by decide) (by decide) (by decide)⟩

/-- C10: a failed `getWeek` call (network error, bad status or unparseable
body, all modelled by `upstream = none`) neither creates nor overwrites the
week's cache entry — the only possible mutation is the lazy eviction of an
already-expired entry during the initial lookup — and a later call for the
same week issues a new upstream request. -/
theorem claim_c10 (upstream : Nat → Option NutriWeek) (ttl : Int)
    (st : FetchState) (d : Nat) (now : Int) (st' : FetchState)
    (hnd : (st.store.map Prod.fst).Nodup)
    (hfail : get_week upstream ttl st d now = (Except.error (), st')) :
    (∀ k, k ≠ week_start d → alist_lookup st'.store k = alist_lookup st.store k)
    ∧ (alist_lookup st'.store (week_start d) = none
      ∨ alist_lookup st'.store (week_start d)
          = alist_lookup st.store (week_start d))
    ∧ (∀ ts v, alist_lookup st.store (week_start d) = some (ts, v) →
        ¬ now - ts > ttl → alist_lookup st'.store (week_start d) = some (ts, v))
    ∧ (∀ (upstream2 : Nat → Option NutriWeek) (now2 : Int),
        ((get_week upstream2 ttl st' d now2).2).calls = st'.calls + 1) := by
  rcases hlk : alist_lookup st.store (week_start d) with _ | tsv
  · rw [get_week_miss hlk] at hfail
    unfold fetch_and_store at hfail
    rcases hup : upstream (week_start d) with _ | resp
    · rw [hup] at hfail
      injection hfail with h1 h2
      subst h2
      refine ⟨fun k _ => rfl, Or.inl hlk, ?_, ?_⟩
      · intro ts v hsome
        exact absurd hsome (by simp)
      · intro u2 n2
        rw [get_week_miss
          (show alist_lookup (FetchState.mk st.store (st.calls + 1)).store
            (week_start d) = none from hlk)]
        exact fetch_and_store_calls u2 _ _ (week_start d) n2
    · rw [hup] at hfail
      simp at hfail
  · obtain ⟨ts, v⟩ := tsv
    by_cases hexp : now - ts > ttl
    · rw [get_week_expired hlk hexp] at hfail
      unfold fetch_and_store at hfail
      rcases hup : upstream (week_start d) with _ | resp
      · rw [hup] at hfail
        injection hfail with h1 h2
        subst h2
        have hself : alist_lookup (remove_key st.store (week_start d))
            (week_start d) = none := alist_lookup_remove_key_self _ _ hnd
        refine ⟨fun k hk => alist_lookup_remove_key_ne _ _ _ hk, Or.inl hself,
          ?_, ?_⟩
        · intro ts' v' hsome hfresh
          injection hsome with h3
          injection h3 with hts hv
          subst hts
          omega
        · intro u2 n2
          rw [get_week_miss
            (show alist_lookup
              (FetchState.mk (remove_key st.store (week_start d))
                (st.calls + 1)).store (week_start d) = none from hself)]
          exact fetch_and_store_calls u2 _ _ (week_start d) n2
      · rw [hup] at hfail
        simp at hfail
    · by_cases hvne : v ≠ []
      · rw [get_week_hit_nonempty hlk hexp hvne] at hfail
        simp at hfail
      · have hv : v = [] := by
          by_contra hc
          exact hvne hc
        subst hv
        rw [get_week_hit_empty hlk hexp] at hfail
        unfold fetch_and_store at hfail
        rcases hup : upstream (week_start d) with _ | resp
        · rw [hup] at hfail
          injection hfail with h1 h2
          subst h2
          refine ⟨fun k _ => rfl, Or.inr hlk,
            fun ts' v' hsome _ => hlk.trans hsome, ?_⟩
          intro u2 n2
          by_cases hexp2 : n2 - ts > ttl
          · rw [get_week_expired
              (show alist_lookup (FetchState.mk st.store (st.calls + 1)).store
                (week_start d) = some (ts, ([] : WeekMenu)) from hlk) hexp2]
            exact fetch_and_store_calls u2 _ _ (week_start d) n2
          · rw [get_week_hit_empty
              (show alist_lookup (FetchState.mk st.store (st.calls + 1)).store
                (week_start d) = some (ts, ([] : WeekMenu)) from hlk) hexp2]
            exact fetch_and_store_calls u2 _ _ (week_start d) n2
        · rw [hup] at hfail
          simp at hfail

theorem claim_c10_witness :
    (alist_lookup (⟨[], 1⟩ : FetchState).store (week_start 1) = none
      ∨ alist_lookup (⟨[], 1⟩ : FetchState).store (week_start 1)
          = alist_lookup (⟨[], 0⟩ : FetchState).store (week_start 1))
    ∧ ((get_week (fun _ => none) 100 ⟨[], 1⟩ 1 5).2).calls
        = (⟨[], 1⟩ : FetchState).calls + 1 := by
  have h := claim_c10 (fun _ => none) 100 ⟨[], 0⟩ 1 0 ⟨[], 1⟩
    (by decide) (by rfl)
  exact ⟨h.2.1, h.2.2.2 (fun _ => none) 5⟩
